import Mathlib

/-!
Verification development for the training.gov.au unit scraper.

This file gives a shallow embedding, in Lean 4, of the algorithmic core of
the scraper: the identifier extractor and unit-code validator
(`src/autoSync.ts`), the sync planner (`syncUnits` in `src/autoSync.ts`),
the JSONL outcome store (`ExportService` in `src/services/exportService.js`),
the retrying fetch engine (`Fetcher.get` in `src/fetcher.ts` together with
`classifyError` from `src/utils`), the per-identifier error categorizer
(`categorizeError` in `src/autoSync.ts`), the caching fetcher wrapper
(`CachedFetcher` in `src/autoSync.ts`), and the HTML-to-record document
extractor (`parseUocHtml` and its helpers in `src/parsers/uocParser.ts`).

Conventions of the embedding:
* JavaScript strings are Lean `String`s; all character classes are the ASCII
  classes used by the source's regular expressions.
* JavaScript regular expressions are translated into executable Lean
  functions over `List Char`; each translation carries a comment naming the
  regex it unfolds.
* JavaScript `Map`/`Set` objects are association lists / lists with
  JS-faithful `get`/`set`/`has`/`add` operations (`set` overwrites, lookup
  returns the most recently set value).
* File-system state (the JSONL corpus, the error log) is explicit state
  threaded through the functions that mutate it.
* Wall-clock timestamps are passed in as opaque `String` parameters.
-/

/-! ## ASCII character classes (the classes used by the source's regexes) -/

/-- JS `[A-Z]`. -/
def isUpperChar (c : Char) : Bool := decide (65 ≤ c.toNat ∧ c.toNat ≤ 90)

/-- JS `[a-z]`. -/
def isLowerChar (c : Char) : Bool := decide (97 ≤ c.toNat ∧ c.toNat ≤ 122)

/-- JS `[A-Za-z]` (what `[A-Z]` matches under the `i` flag). -/
def isLetterChar (c : Char) : Bool := isUpperChar c || isLowerChar c

/-- JS `\d`. -/
def isDigitChar (c : Char) : Bool := decide (48 ≤ c.toNat ∧ c.toNat ≤ 57)

/-- JS `[A-Za-z0-9]`. -/
def isAlnumChar (c : Char) : Bool := isLetterChar c || isDigitChar c

/-- JS `[A-Z0-9]`. -/
def isUpperDigitChar (c : Char) : Bool := isUpperChar c || isDigitChar c

/-- JS `\w`, i.e. `[A-Za-z0-9_]`. -/
def isWordChar (c : Char) : Bool := isAlnumChar c || decide (c.toNat = 95)

/-- JS `\s` restricted to ASCII: space, tab, LF, VT, FF, CR. -/
def isWsChar (c : Char) : Bool := decide (c.toNat = 32 ∨ (9 ≤ c.toNat ∧ c.toNat ≤ 13))

/-- ASCII `String.prototype.toLowerCase` on one character. -/
def toLowerChar (c : Char) : Char :=
  if isUpperChar c then Char.ofNat (c.toNat + 32) else c

/-- ASCII `String.prototype.toUpperCase` on one character. -/
def toUpperChar (c : Char) : Char :=
  if isLowerChar c then Char.ofNat (c.toNat - 32) else c

/-- ASCII `String.prototype.toLowerCase`. -/
def toLowerStr (s : String) : String := String.mk (s.toList.map toLowerChar)

/-- ASCII `String.prototype.toUpperCase`. -/
def toUpperStr (s : String) : String := String.mk (s.toList.map toUpperChar)

/-- `String.prototype.trim` (ASCII whitespace). -/
def jsTrim (s : String) : String :=
  String.mk (((s.toList.dropWhile isWsChar).reverse.dropWhile isWsChar).reverse)

/-- `String.prototype.includes` on character lists: `sub` occurs contiguously
in `hay`. -/
def containsSubL : List Char → List Char → Bool
  | [], sub => sub.isEmpty
  | c :: t, sub => sub.isPrefixOf (c :: t) || containsSubL t sub

/-- `String.prototype.includes`: `sub` occurs contiguously in `hay`. -/
def containsSub (hay sub : String) : Bool := containsSubL hay.toList sub.toList

/-- `String.prototype.startsWith`. -/
def jsStartsWith (s p : String) : Bool := p.toList.isPrefixOf s.toList

/-- Index of the first occurrence of `sub` in `hay` (for `String.prototype.replace`
with a plain-string pattern). -/
def findSubIdx : List Char → List Char → Option Nat
  | hay, sub =>
    if sub.isPrefixOf hay then some 0
    else
      match hay with
      | [] => none
      | _ :: t => (findSubIdx t sub).map (· + 1)

/-- `String.prototype.replace` with a plain-string pattern: replace the first
occurrence of `pat` by `repl`. -/
def replaceFirst (s pat repl : String) : String :=
  match findSubIdx s.toList pat.toList with
  | none => s
  | some i => String.mk (s.toList.take i ++ repl.toList ++ s.toList.drop (i + pat.toList.length))

/-! ## Word runs and code-token regexes

Both code-token regexes of the source are bracketed by `\b` word boundaries
and consume only word characters, so a match is necessarily an entire maximal
run of word characters of the subject string.  `wordRuns` computes those runs;
the per-run predicates below unfold the bracketed patterns on a whole run. -/

/-- Maximal runs of `\w` characters of a character list. -/
def wordRunsAux : List Char → List Char → List (List Char)
  | [], acc => if acc.isEmpty then [] else [acc.reverse]
  | c :: rest, acc =>
    if isWordChar c then wordRunsAux rest (c :: acc)
    else if acc.isEmpty then wordRunsAux rest []
    else acc.reverse :: wordRunsAux rest []

/-- Maximal runs of `\w` characters of a string, in order. -/
def wordRuns (s : String) : List String := (wordRunsAux s.toList []).map String.mk

/-- A whole word run matches `[A-Z]{2,}\w*\d{2,}` (so the text matches
`\b([A-Z]{2,}\w*\d{2,})\b` exactly at that run): at least four characters,
the first two uppercase letters, the last two digits — the middle is
absorbed by `\w*`, and all run characters are word characters by
construction. -/
def codeTokenOk (cs : List Char) : Bool :=
  decide (4 ≤ cs.length) &&
  isUpperChar (cs.getD 0 ' ') && isUpperChar (cs.getD 1 ' ') &&
  isDigitChar (cs.getD (cs.length - 2) ' ') && isDigitChar (cs.getD (cs.length - 1) ' ')

/-- First match of `/\b([A-Z]{2,}\w*\d{2,})\b/` in a string (used by the
DOM parser on link texts and on `h1` text). -/
def firstCodeToken (s : String) : Option String :=
  ((wordRunsAux s.toList []).find? codeTokenOk).map String.mk

/-- JS `Set` insertion-order dedup (`[...new Set(xs)]`): auxiliary, with the
set of already seen elements. -/
def jsSetDedupAux : List String → List String → List String
  | [], _ => []
  | x :: xs, seen =>
    if seen.contains x then jsSetDedupAux xs seen
    else x :: jsSetDedupAux xs (x :: seen)

/-- `[...new Set(xs)]`: deduplicate keeping first occurrences, in order. -/
def jsSetDedup (l : List String) : List String := jsSetDedupAux l []

/-- All matches of `/\b[A-Z]{2,}\w*\d{2,}\b/g` deduplicated through a `Set`
(used by `parseUocHtml` for prerequisite codes). -/
def allCodeTokens (s : String) : List String :=
  jsSetDedup (((wordRunsAux s.toList []).filter codeTokenOk).map String.mk)

/-! ## Identifier extractor (`src/autoSync.ts`) -/

/-- One disjunct of the anchored match of `[A-Z]{2,4}[A-Z0-9]{3,10}` against a
whole word run: the leading group takes exactly `k` uppercase letters and the
body the remaining `3..10` characters, all in `[A-Z0-9]`. -/
def excelRunBranch (k : Nat) (cs : List Char) : Bool :=
  decide (k ≤ cs.length) && (cs.take k).all isUpperChar &&
  (cs.drop k).all isUpperDigitChar &&
  decide (3 ≤ cs.length - k) && decide (cs.length - k ≤ 10)

/-- A whole word run matches `[A-Z]{2,4}[A-Z0-9]{3,10}` (so the text matches
the scan pattern `/\b([A-Z]{2,4}[A-Z0-9]{3,10})\b/g` exactly at that run),
unfolded over the three possible sizes of the leading letter group. -/
def excelRunOk (cs : List Char) : Bool :=
  excelRunBranch 2 cs || excelRunBranch 3 cs || excelRunBranch 4 cs

/-- `code.match(/\d/g)?.length`: number of digit characters. -/
def digitCount (s : String) : Nat := (s.toList.filter isDigitChar).length

/-- The fixed denylist of known false positives (`excludeList` in
`isValidUnitCode`). -/
def excludeList : List String :=
  ["SCUBA", "HACCP", "HACC", "TAFE", "CERT", "DIPLOMA", "ADVANCED",
   "STATEMENT", "QUALIFICATION", "TRAINING", "EDUCATION",
   "SKILLS", "COMPETENCY", "ASSESSMENT", "EVIDENCE"]

/-- `code.match(/^[A-Z]{2,4}/) !== null`: the unanchored-end prefix pattern
succeeds exactly when the first two characters are uppercase letters. -/
def leadingUpper2 (s : String) : Bool :=
  match s.toList with
  | a :: b :: _ => isUpperChar a && isUpperChar b
  | _ => false

/-- `code.match(/^[A-Z]{2,4}[A-Z0-9]*\d+[A-Z]?$/i) !== null`, unfolded: under
the `i` flag the letter classes are case-insensitive, so the anchored pattern
succeeds exactly when the string is nonempty alphanumeric, starts with two
letters, and ends in a digit or in a digit followed by one final letter. -/
def finalUnitPattern (s : String) : Bool :=
  let cs := s.toList
  decide (3 ≤ cs.length) && cs.all isAlnumChar &&
  isLetterChar (cs.getD 0 ' ') && isLetterChar (cs.getD 1 ' ') &&
  (isDigitChar (cs.getD (cs.length - 1) ' ') ||
    (isDigitChar (cs.getD (cs.length - 2) ' ') && isLetterChar (cs.getD (cs.length - 1) ' ')))

/-- `isValidUnitCode` from `src/autoSync.ts`. -/
def isValidUnitCode (code : String) : Bool :=
  if code.length < 6 || code.length > 12 then false
  else if !leadingUpper2 code then false
  else if digitCount code < 3 then false
  else if excludeList.contains (toUpperStr code) then false
  else finalUnitPattern code

/-- The codes of one string cell: every `\b([A-Z]{2,4}[A-Z0-9]{3,10})\b` match
that passes `isValidUnitCode`, in match order (the inner loop of
`readUnitCodesFromExcel`). -/
def cellCodes (cell : String) : List String :=
  (((wordRunsAux cell.toList []).filter excelRunOk).map String.mk).filter isValidUnitCode

/-- `readUnitCodesFromExcel`, with the workbook abstracted to its string
cells: a workbook is a list of sheets, a sheet a list of rows, a row the list
of its scanned string-valued cells (non-string cells contribute nothing and
are omitted).  All cells are scanned in order and the collected codes are
deduplicated through a `Set` preserving first occurrence. -/
def readUnitCodes (sheets : List (List (List String))) : List String :=
  jsSetDedup (sheets.flatMap (fun rows => rows.flatMap (fun row => row.flatMap cellCodes)))

/-- The token grammar as the specification words it (§3 / §4.1): 2–4 leading
uppercase letters (at least the mandatory first two; subsequent letters may
also belong to the body), an alphanumeric body containing at least 3 digits,
total length 6–12, optionally ending in a single letter (immediately after a
digit). Stated from the spec's words for comparison with the code's
extractor. -/
def specTokenGrammar (s : String) : Bool :=
  let cs := s.toList
  leadingUpper2 s && cs.all isAlnumChar && decide (3 ≤ digitCount s) &&
  decide (6 ≤ cs.length) && decide (cs.length ≤ 12) &&
  (isDigitChar (cs.getD (cs.length - 1) ' ') ||
    (isDigitChar (cs.getD (cs.length - 2) ' ') && isLetterChar (cs.getD (cs.length - 1) ' ')))

/-! ## Sync planner (`syncUnits` / `loadPreviousErrors` in `src/autoSync.ts`) -/

/-- JS `Map` as an association list.  `set` appends (lookup takes the most
recently set binding, matching `Map.prototype.set` overwriting). -/
def mapSet {β : Type} (m : List (String × β)) (k : String) (v : β) : List (String × β) :=
  m ++ [(k, v)]

/-- `Map.prototype.get`: the most recently `set` value for the key. -/
def mapGet {β : Type} (m : List (String × β)) (k : String) : Option β :=
  m.reverse.lookup k

/-- `Map.prototype.has`. -/
def mapHas {β : Type} (m : List (String × β)) (k : String) : Bool :=
  (mapGet m k).isSome

/-- The `UnitError` record of `src/autoSync.ts` (its `lastAttempt` timestamp
is an opaque string here). -/
structure UnitError where
  code : String
  error : String
  attempts : Nat
  lastAttempt : String
deriving Repr, DecidableEq

/-- One entry of the `errorUnits` array of `error-log.json` as read back by
`loadPreviousErrors`; `attempts`/`lastAttempt` may be absent in the JSON. -/
structure RawErrorEntry where
  code : String
  error : String
  attempts : Option Nat
  lastAttempt : Option String
deriving Repr, DecidableEq

/-- The shape of `error-log.json` as far as `loadPreviousErrors` is
concerned: the `invalidUnits` array written by `saveErrorLog` (code with
reason, marked `permanent: true` on write) and the `errorUnits` array. -/
structure ErrorLog where
  invalidUnits : List (String × String)
  errorUnits : List RawErrorEntry
deriving Repr, DecidableEq

/-- JS `x || 1` on the optional `attempts` field (`0` and absent both give 1). -/
def jsOr1 (o : Option Nat) : Nat :=
  match o with
  | none => 1
  | some n => if n = 0 then 1 else n

/-- `loadPreviousErrors` from `src/autoSync.ts`: builds the previous-error map
from the `errorUnits` array only — the `invalidUnits` array of the log is
never read.  `now` stands for `new Date().toISOString()`. -/
def loadPreviousErrors (log : ErrorLog) (now : String) : List (String × UnitError) :=
  log.errorUnits.foldl
    (fun m e => mapSet m e.code ⟨e.code, e.error, jsOr1 e.attempts, e.lastAttempt.getD now⟩) []

/-- JS `config.maxRetries || 3` (absent or `0` gives the default 3). -/
def maxRetriesOrDefault (o : Option Nat) : Nat :=
  match o with
  | none => 3
  | some n => if n = 0 then 3 else n

/-- The planner's per-identifier classification. -/
inductive Classification where
  | skip
  | retry
  | new
deriving Repr, DecidableEq

/-- The classification decision of the planning loop of `syncUnits`:
already in the output workbook → skip; in the previous-error map with
`attempts < maxRetries` → retry, otherwise skip; else new. -/
def classifyUnit (existingUnits : List String) (previousErrors : List (String × UnitError))
    (maxRetries : Nat) (code : String) : Classification :=
  if existingUnits.contains code then .skip
  else
    match mapGet previousErrors code with
    | some errInfo => if errInfo.attempts < maxRetries then .retry else .skip
    | none => .new

/-- The `unitsToScrape` list built by the planning loop of `syncUnits` (the
requested codes classified `new`, in request order). -/
def unitsToScrape (requested existingUnits : List String)
    (previousErrors : List (String × UnitError)) (maxRetries : Nat) : List String :=
  requested.filter (fun c => decide (classifyUnit existingUnits previousErrors maxRetries c = .new))

/-- The `unitsToRetry` list built by the planning loop of `syncUnits`. -/
def unitsToRetry (requested existingUnits : List String)
    (previousErrors : List (String × UnitError)) (maxRetries : Nat) : List String :=
  requested.filter (fun c => decide (classifyUnit existingUnits previousErrors maxRetries c = .retry))

/-- The identifiers the planning loop only reports (already present, or
pending with exhausted retries, or logged before): classified `skip`. -/
def skippedUnits (requested existingUnits : List String)
    (previousErrors : List (String × UnitError)) (maxRetries : Nat) : List String :=
  requested.filter (fun c => decide (classifyUnit existingUnits previousErrors maxRetries c = .skip))

/-- `const allUnitsToProcess = [...unitsToScrape, ...unitsToRetry];` — the
scheduler's work queue, new units first, retries after them. -/
def allUnitsToProcess (requested existingUnits : List String)
    (previousErrors : List (String × UnitError)) (maxRetries : Nat) : List String :=
  unitsToScrape requested existingUnits previousErrors maxRetries ++
    unitsToRetry requested existingUnits previousErrors maxRetries

/-- The deterministic detail-page URL built for each identifier in
`syncUnits`. -/
def unitDetailsUrl (code : String) : String :=
  "https://training.gov.au/training/details/" ++ code ++ "/unitdetails"

/-! ## Outcome store (`ExportService` in `src/services/exportService.js`) -/

/-- A persisted supersession reference (`{ code, url }`). -/
structure CodeUrl where
  code : String
  url : String
deriving Repr, DecidableEq

/-- `UocElement` from `src/models/uoc.ts`. -/
structure UocElement where
  element : String
  performanceCriteria : List String
deriving Repr, DecidableEq

/-- `UocSection` from `src/models/uoc.ts`. -/
structure UocSection where
  heading : String
  level : Nat
  paragraphs : List String
  lists : List (List String)
deriving Repr, DecidableEq

/-- The `Uoc` record from `src/models/uoc.ts`; optional fields are `Option`,
the `null`-typed supersession links are `none` when null. -/
structure Uoc where
  url : String
  code : String
  title : String
  status : Option String
  release : Option String
  application : Option String
  unitSector : Option String
  licensingOrRegulatoryInfo : Option String
  prerequisites : Option (List String)
  elements : Option (List UocElement)
  foundationSkills : Option String
  assessmentConditions : Option String
  performanceEvidence : Option String
  knowledgeEvidence : Option String
  description : Option String
  supersededBy : Option CodeUrl
  supersedes : Option CodeUrl
  sections : Option (List UocSection)
  lastFetchedAt : String
deriving Repr, DecidableEq

/-- The mutable state of an `ExportService`: the parsed lines of `uoc.jsonl`
(each line one serialized record) and the in-memory `existingCodes` set.
The per-unit JSON cache files are outside the corpus and not modelled. -/
structure ExportState where
  lines : List Uoc
  existingCodes : List String
deriving Repr, DecidableEq

/-- `Set.prototype.add`. -/
def setAdd (s : List String) (c : String) : List String :=
  if s.contains c then s else s ++ [c]

/-- `ExportService.init`: load the existing codes from the corpus lines. -/
def initExportState (lines : List Uoc) : ExportState :=
  ⟨lines, lines.foldl (fun s u => setAdd s u.code) []⟩

/-- `ExportService.removeUnit`: drop every line whose record carries the
given code (unparseable lines, not modelled here, are kept by the source). -/
def removeUnit (st : ExportState) (code : String) : ExportState :=
  { st with lines := st.lines.filter (fun u => u.code != code) }

/-- `ExportService.writeJsonl`: if the code is already tracked, remove its
prior line first; then append the new line and track the code. -/
def writeJsonl (st : ExportState) (item : Uoc) : ExportState :=
  let st1 := if st.existingCodes.contains item.code then removeUnit st item.code else st
  { lines := st1.lines ++ [item], existingCodes := setAdd st1.existingCodes item.code }

/-! ## Fetch engine (`Fetcher` in `src/fetcher.ts`, `classifyError` in
`src/utils/requestUtils.ts`) -/

/-- `classifyError` from `src/utils/requestUtils.ts`; the error is modelled by
its message, `none` standing for a missing (`undefined`) error object. -/
def classifyError (e : Option String) : String :=
  match e with
  | none => "UNKNOWN"
  | some m =>
    let msg := toLowerStr m
    if containsSub msg "timed out" || containsSub msg "timeout" then "TIMEOUT"
    else if containsSub msg "net::err" || containsSub msg "econn" ||
        containsSub msg "socket" || containsSub msg "epipe" then "NETWORK"
    else if containsSub msg "parse" || containsSub msg "json" then "PARSE"
    else "UNKNOWN"

/-- `lastErr?.message || String(lastErr)` when building the aggregated error
(`String(undefined)` is the string "undefined"). -/
def fetchErrMsg (lastErr : Option String) : String :=
  match lastErr with
  | none => "undefined"
  | some m => m

/-- The observable outcome of one underlying page load attempt. -/
inductive AttemptOutcome where
  | ok (html : String)
  | fail (msg : String)
deriving Repr, DecidableEq

deriving instance DecidableEq for Except

/-- The observable behaviour of one `Fetcher.get` call: its result, how many
underlying attempts it made, and the backoff delays it slept between
attempts, in order. -/
structure FetchTrace where
  result : Except String String
  attemptsMade : Nat
  backoffs : List Nat
deriving Repr, DecidableEq

/-- The retry loop of `Fetcher.get`: `attempt` starts at 0 and is
pre-incremented; on failure with `attempt < maxRetries` remaining the loop
sleeps `backoffMs * attempt` and retries; once `attempt` reaches `maxRetries`
a single aggregated `FetchFailed:<type>:<msg>` error is raised carrying the
classification and message of the last failure.  `oracle n` is the outcome of
the `n`-th underlying attempt (1-based). -/
def fetchLoop (oracle : Nat → AttemptOutcome) (maxRetries backoffMs attempt : Nat)
    (lastErr : Option String) (backoffs : List Nat) : FetchTrace :=
  if attempt < maxRetries then
    match oracle (attempt + 1) with
    | .ok html => ⟨.ok html, attempt + 1, backoffs⟩
    | .fail m =>
      fetchLoop oracle maxRetries backoffMs (attempt + 1) (some m)
        (if attempt + 1 < maxRetries then backoffs ++ [backoffMs * (attempt + 1)] else backoffs)
  else
    ⟨.error ("FetchFailed:" ++ classifyError lastErr ++ ":" ++ fetchErrMsg lastErr),
      attempt, backoffs⟩
termination_by maxRetries - attempt

/-- `FetcherOptions` restricted to the retry knobs (`maxRetries ?? 3`,
`backoffMs ?? 750` applied by the constructor). -/
structure FetcherRetryOptions where
  maxRetries : Option Nat
  backoffMs : Option Nat
deriving Repr, DecidableEq

/-- `Fetcher.get` (its retry behaviour): run the attempt loop with the
constructor-defaulted knobs. -/
def fetcherGet (oracle : Nat → AttemptOutcome) (opts : FetcherRetryOptions) : FetchTrace :=
  fetchLoop oracle (opts.maxRetries.getD 3) (opts.backoffMs.getD 750) 0 none []

/-! ## Per-identifier error categorization (`categorizeError` in
`src/autoSync.ts`) -/

/-- The outcome recorded for a failed identifier: pushed onto `invalidUnits`
(permanent) or written into the `errorUnits` map (pending retry). -/
inductive CatOutcome where
  | invalid (reason : String)
  | pendingErr (attempts : Nat) (msg : String) (lastAttempt : String)
deriving Repr, DecidableEq

/-- JS `existingError?.attempts || 0`. -/
def jsOr0 (o : Option Nat) : Nat :=
  match o with
  | none => 0
  | some n => n

/-- `categorizeError` from `syncUnits`: a message containing an explicit
not-found marker (`404` or `not found`) records a permanent invalid outcome;
otherwise the attempts counter of any existing error entry is incremented by
one (initialized to 1 when absent) and a pending outcome is recorded with the
error text and timestamp. -/
def categorizeError (prevAttempts : Option Nat) (errorMsg : String) (now : String) : CatOutcome :=
  if containsSub errorMsg "404" || containsSub errorMsg "not found" then
    .invalid "404 - Unit not found"
  else
    .pendingErr (jsOr0 prevAttempts + 1) errorMsg now

/-! ## Caching fetcher wrapper (`CachedFetcher` in `src/autoSync.ts`) -/

/-- A `CachedFetcher`'s observable state: its URL→HTML cache and the log of
URLs it actually fetched over the network (each `super.get` call, which is
also where the politeness delay is applied). -/
structure CachedFetcherState where
  cache : List (String × String)
  fetchLog : List String
deriving Repr, DecidableEq

/-- `CachedFetcher.setCache`. -/
def setCache (st : CachedFetcherState) (url html : String) : CachedFetcherState :=
  { st with cache := mapSet st.cache url html }

/-- `CachedFetcher.get`: return the cached HTML when present (no network, no
politeness delay); otherwise delegate to `Fetcher.get`, modelled by the pure
page content `net url` and a fetch-log entry. -/
def cachedGet (net : String → String) (st : CachedFetcherState) (url : String) :
    String × CachedFetcherState :=
  match mapGet st.cache url with
  | some h => (h, st)
  | none => (net url, { st with fetchLog := st.fetchLog ++ [url] })

/-- The validate-then-scrape flow of `syncUnits` for one identifier whose
page passes validation: fetch the detail page once through the shared
`CachedFetcher`, cache the HTML, then fetch the same URL again in the
scraping phase. -/
def validateThenScrape (net : String → String) (code : String) :
    String × CachedFetcherState :=
  let url := unitDetailsUrl code
  let r1 := cachedGet net ⟨[], []⟩ url
  let st2 := setCache r1.2 url r1.1
  cachedGet net st2 url

/-! ## Document extractor (`src/parsers/uocParser.ts`)

The DOM produced by `cheerio.load` is abstracted to the features the parser
queries: the hero subtitle (`.heroSubheading .title` with its first `strong`),
the first `h1`/`h2` texts, the status pills, the `.release-label` parent
text, the `dt`/`dd` pairs, the detail-page links with their text and parent
text, and the sibling sequence of content nodes (headings, paragraphs,
lists, divs, tables).  Root wrapper elements (`html`, `head`, `body`) are not
represented; headings are modelled at the top level of the sibling sequence,
matching their position on the scraped pages. -/

/-- `isDigitChar` at an index (out-of-range reads a non-digit). -/
def isDigitAt (cs : List Char) (i : Nat) : Bool := isDigitChar (cs.getD i ' ')

/-- All candidate match ends of a trailing `\d{2,}` inside a run: the
positions `e` with at least two digits just before `e`, ascending. -/
def digitPairEnds (run : List Char) : List Nat :=
  (List.range (run.length + 1)).filter
    (fun e => decide (2 ≤ e) && isDigitAt run (e - 2) && isDigitAt run (e - 1))

/-- Greedy match of `[A-Za-z]{2,}\w*\d{2,}` anchored at the head of `cs`
(the capture of `/Unit of Competency:\s*([A-Z]{2,}\w*\d{2,})/i`): two leading
letters, then the longest extent of word characters that still ends in two
digits. -/
def matchCodeAt (cs : List Char) : Option (List Char) :=
  match cs with
  | a :: b :: _ =>
    if isLetterChar a && isLetterChar b then
      let run := cs.takeWhile isWordChar
      ((digitPairEnds run).getLast?).map run.take
    else none
  | _ => none

/-- Scan for `/Unit of Competency:\s*([A-Z]{2,}\w*\d{2,})/i`: at each
position, try the case-insensitive label, then skip whitespace, then match
the code pattern there. -/
def uocScan : List Char → Option (List Char)
  | [] => none
  | l@(_ :: t) =>
    if ("unit of competency:".toList).isPrefixOf (l.map toLowerChar) then
      match matchCodeAt ((l.drop 19).dropWhile isWsChar) with
      | some code => some code
      | none => uocScan t
    else uocScan t

/-- `/Unit of Competency:\s*([A-Z]{2,}\w*\d{2,})/i.exec(h1)` capture. -/
def execUocCode (h1 : String) : Option String := (uocScan h1.toList).map String.mk

/-- The trailing `\s*[-–—]?\s*(.+)$` of the generic heading split, applied to
the text after the code capture: the greedy dash-consuming alternative is
tried first, and `(.+)$` requires a nonempty newline-free remainder. -/
def dashTitleSuffix (rest : List Char) : Option (List Char) :=
  let r1 := rest.dropWhile isWsChar
  let withDash :=
    match r1 with
    | c :: t =>
      if c = '-' || c = '–' || c = '—' then
        let r2 := t.dropWhile isWsChar
        if !r2.isEmpty && r2.all (fun ch => decide (ch ≠ '\n')) then some r2 else none
      else none
    | [] => none
  match withDash with
  | some r => some r
  | none => if !r1.isEmpty && r1.all (fun ch => decide (ch ≠ '\n')) then some r1 else none

/-- Backtracking over the candidate ends of the code capture (longest
first), trying the dash-and-title suffix after each. -/
def dashSplitTry (cs : List Char) : List Nat → Option (String × String)
  | [] => none
  | e :: rest =>
    match dashTitleSuffix (cs.drop e) with
    | some title => some (String.mk (cs.take e), String.mk title)
    | none => dashSplitTry cs rest

/-- `/^([A-Z]{2,}\w*\d{2,})\s*[-–—]?\s*(.+)$/.exec(h1)`: anchored
case-sensitive code capture followed by an optional dash and a nonempty
title. -/
def dashSplit (h1 : String) : Option (String × String) :=
  let cs := h1.toList
  match cs with
  | a :: b :: _ =>
    if isUpperChar a && isUpperChar b then
      dashSplitTry cs (digitPairEnds (cs.takeWhile isWordChar)).reverse
    else none
  | _ => none

/-- Scan for `/Title:\s*(.+)$/i`: at each position try the label, skip
whitespace, and capture the nonempty newline-free remainder. -/
def titleScan : List Char → Option (List Char)
  | [] => none
  | l@(_ :: t) =>
    if ("title:".toList).isPrefixOf (l.map toLowerChar) then
      let rest := (l.drop 6).dropWhile isWsChar
      if !rest.isEmpty && rest.all (fun ch => decide (ch ≠ '\n')) then some rest
      else titleScan t
    else titleScan t

/-- `h2.match(/Title:\s*(.+)$/i)` capture. -/
def titleAfterLabelMatch (h2 : String) : Option String := (titleScan h2.toList).map String.mk

/-- Scan for `/Release\s*(\d+)/i`: label, optional whitespace, then a greedy
nonempty digit group. -/
def releaseScan : List Char → Option (List Char)
  | [] => none
  | l@(_ :: t) =>
    if ("release".toList).isPrefixOf (l.map toLowerChar) then
      let ds := ((l.drop 7).dropWhile isWsChar).takeWhile isDigitChar
      if !ds.isEmpty then some ds else releaseScan t
    else releaseScan t

/-- `releaseText.match(/Release\s*(\d+)/i)` capture. -/
def releaseNumMatch (s : String) : Option String := (releaseScan s.toList).map String.mk

/-- `/^\s*Description:\s*(.+)$/i` applied to an already-trimmed paragraph
text. -/
def descrMatch (t : String) : Option String :=
  let cs := (jsTrim t).toList
  if ("description:".toList).isPrefixOf (cs.map toLowerChar) then
    let rest := (cs.drop 12).dropWhile isWsChar
    if !rest.isEmpty && rest.all (fun ch => decide (ch ≠ '\n')) then
      some (jsTrim (String.mk rest))
    else none
  else none

/-- `/^\d+\.\d+$/.test(s)`: a performance-criterion number. -/
def isPcNumber (s : String) : Bool :=
  let cs := s.toList
  let d1 := cs.takeWhile isDigitChar
  !d1.isEmpty &&
    (match cs.drop d1.length with
     | '.' :: tail => !tail.isEmpty && tail.all isDigitChar
     | _ => false)

/-- `.replace(/\s+/g, ' ')` auxiliary; the flag records whether the current
whitespace run has already emitted its single space. -/
def collapseWsAux : List Char → Bool → List Char
  | [], _ => []
  | c :: t, prevWs =>
    if isWsChar c then
      if prevWs then collapseWsAux t true else ' ' :: collapseWsAux t true
    else c :: collapseWsAux t false

/-- `.replace(/\s+/g, ' ')`. -/
def collapseWs (s : String) : String := String.mk (collapseWsAux s.toList false)

/-- The lookahead `(?=\n\s*(?:stop₁|…|stopₙ|$))` at the head of `cs` (the
stop labels are given lowercased). -/
def stopLookahead (stops : List (List Char)) (cs : List Char) : Bool :=
  match cs with
  | '\n' :: t =>
    let t2 := t.dropWhile isWsChar
    t2.isEmpty || stops.any (fun st => st.isPrefixOf (t2.map toLowerChar))
  | _ => false

/-- The lazy `([\s\S]+?)` before a stop lookahead: the shortest nonempty
capture whose end satisfies the lookahead. -/
def lazyWindowGo (stops : List (List Char)) : List Char → List Char → Option (List Char)
  | acc, rest =>
    if stopLookahead stops rest then some acc.reverse
    else
      match rest with
      | [] => none
      | c :: t => lazyWindowGo stops (c :: acc) t

/-- `([\s\S]+?)(?=…)` anchored at `start`: at least one character, then the
lazy extension. -/
def lazyWindow (stops : List (List Char)) : List Char → Option (List Char)
  | [] => none
  | c :: t => lazyWindowGo stops [c] t

/-- Scan for `/label\s+([\s\S]+?)(?=\n\s*(?:stops|$))/i` (the full-text
fallback windows of the parser): case-insensitive label, mandatory
whitespace taken greedily, then the lazy capture up to the stop
lookahead. -/
def scanWindow (label : List Char) (stops : List (List Char)) : List Char → Option (List Char)
  | [] => none
  | l@(_ :: t) =>
    if label.isPrefixOf (l.map toLowerChar) then
      let after := l.drop label.length
      let ws := after.takeWhile isWsChar
      if ws.isEmpty then scanWindow label stops t
      else
        match lazyWindow stops (after.drop ws.length) with
        | some cap => some cap
        | none => scanWindow label stops t
    else scanWindow label stops t

/-- Strategy-3 window of `extractAssessmentConditions`:
`/Assessment conditions\s+([\s\S]+?)(?=\n\s*(?:Performance evidence|Knowledge evidence|Range|$))/i`
then `.trim().replace(/\s+/g, ' ').substring(0, 2000)`. -/
def acWindow (allText : String) : Option String :=
  (scanWindow ("assessment conditions".toList)
      [("performance evidence".toList), ("knowledge evidence".toList), ("range".toList)]
      allText.toList).map
    (fun cap => String.mk ((collapseWs (jsTrim (String.mk cap))).toList.take 2000))

/-- Strategy-3 window of `extractLicensingInfo`:
`/Licensing\/Regulatory Information\s+([\s\S]+?)(?=\n\s*(?:Pre-requisite|Application|$))/i`
then `.trim().replace(/\s+/g, ' ').substring(0, 500)`. -/
def licWindow (allText : String) : Option String :=
  (scanWindow ("licensing/regulatory information".toList)
      [("pre-requisite".toList), ("application".toList)]
      allText.toList).map
    (fun cap => String.mk ((collapseWs (jsTrim (String.mk cap))).toList.take 500))

/-- Scan of `/\n\s*Licensing\/Regulatory Information[\s\S]*?(?=\n|$)/i`:
returns the start index and length of the first match (`cleanApplication`
deletes it). -/
def cleanAppScan : List Char → Option (Nat × Nat)
  | [] => none
  | '\n' :: rest =>
    let ws := rest.takeWhile isWsChar
    let r2 := rest.drop ws.length
    if ("licensing/regulatory information".toList).isPrefixOf (r2.map toLowerChar) then
      let afterLabel := r2.drop 32
      let keepFrom := afterLabel.dropWhile (fun c => decide (c ≠ '\n'))
      some (0, 1 + ws.length + 32 + (afterLabel.length - keepFrom.length))
    else (cleanAppScan rest).map (fun p => (p.1 + 1, p.2))
  | _ :: rest => (cleanAppScan rest).map (fun p => (p.1 + 1, p.2))

/-- `cleanApplication` from `src/parsers/uocParser.ts`: strip the embedded
licensing line from the application text, trim, and drop the field when the
remainder is empty (JS falsiness of `''` and `undefined`). -/
def cleanApplication (o : Option String) : Option String :=
  match o with
  | none => none
  | some text =>
    if text = "" then none
    else
      let cs := text.toList
      let cleaned := jsTrim (String.mk (match cleanAppScan cs with
        | none => cs
        | some (i, len) => cs.take i ++ cs.drop (i + len)))
      if cleaned = "" then none else some cleaned

/-- A list item (`li`): its own text (excluding nested lists, as obtained by
the parser's clone-and-remove) and the items of its nested lists. -/
inductive LItem where
  | mk (text : String) (children : List LItem)
deriving Repr

/-- The own text of a list item. -/
def liText : LItem → String
  | .mk t _ => t

/-- A table cell (`td`): its full text, the item lists of its child
`ul`/`ol` elements, and the texts of its `p` descendants. -/
structure TCell where
  text : String
  lists : List (List LItem)
  paras : List String
deriving Repr

/-- A content node of the document's sibling sequence. -/
inductive FlatNode where
  | heading (tag : String) (text : String)
  | para (text : String)
  | listN (items : List LItem)
  | divN (children : List FlatNode)
  | tableN (rows : List (List TCell))
deriving Repr

/-- A detail-page link (`a[href^='/training/details/']` candidate) with its
href, its own text, and its parent's text. -/
structure SupLink where
  href : String
  text : String
  parentText : String
deriving Repr, DecidableEq

mutual
/-- The text of `$(li).text()`: own text followed by nested-item text. -/
def liFullText : LItem → String
  | .mk t cs => t ++ liListFullText cs

def liListFullText : List LItem → String
  | [] => ""
  | i :: t => liFullText i ++ liListFullText t
end

mutual
/-- The items of `find("li")` below a sequence of items: every item in
document order (each item before its descendants). -/
def liFlatten : LItem → List LItem
  | .mk t cs => .mk t cs :: liListFlatten cs

def liListFlatten : List LItem → List LItem
  | [] => []
  | i :: t => liFlatten i ++ liListFlatten t
end

/-- `"  ".repeat(depth)`-style repetition. -/
def strRepeat (s : String) : Nat → String
  | 0 => ""
  | n + 1 => s ++ strRepeat s n

mutual
/-- One item of `extractNestedList` from `src/parsers/uocParser.ts`: bullet
the item's own trimmed text with `•` at depth 0 and `◦` below, two spaces of
indent per level, drop items mentioning the evidence preamble, and recurse
into nested lists after the item. -/
def nestedItemLines (depth : Nat) : LItem → List String
  | .mk t cs =>
    let text := jsTrim t
    (if text ≠ "" && !containsSub (toLowerStr text) "evidence required to demonstrate" then
      [strRepeat "  " depth ++ (if depth = 0 then "•" else "◦") ++ " " ++ text]
    else []) ++ nestedListLines (depth + 1) cs

def nestedListLines (depth : Nat) : List LItem → List String
  | [] => []
  | i :: t => nestedItemLines depth i ++ nestedListLines depth t
end

/-- The concatenated text of a table (`$table.text()`), via its cells. -/
def tableText (rows : List (List TCell)) : String :=
  String.join ((rows.flatMap id).map (fun c => c.text))

mutual
/-- The text of `$(el).text()` for a node. -/
def nodeText : FlatNode → String
  | .heading _ t => t
  | .para t => t
  | .listN items => liListFullText items
  | .divN cs => nodesText cs
  | .tableN rows => tableText rows

def nodesText : List FlatNode → String
  | [] => ""
  | n :: t => nodeText n ++ nodesText t
end

mutual
/-- The texts of `find("p")` below a node, in document order (paragraphs
inside list items are not modelled). -/
def nodeParas : FlatNode → List String
  | .heading _ _ => []
  | .para t => [t]
  | .listN _ => []
  | .divN cs => nodesParas cs
  | .tableN rows => rows.flatMap (fun r => r.flatMap (fun c => c.paras))

def nodesParas : List FlatNode → List String
  | [] => []
  | n :: t => nodeParas n ++ nodesParas t
end

mutual
/-- The item lists of `find("ul, ol")` below a node, in document order
(lists nested inside list items are reached through the items' children
instead). -/
def nodeListNodes : FlatNode → List (List LItem)
  | .heading _ _ => []
  | .para _ => []
  | .listN items => [items]
  | .divN cs => nodesListNodes cs
  | .tableN rows => rows.flatMap (fun r => r.flatMap (fun c => c.lists))

def nodesListNodes : List FlatNode → List (List LItem)
  | [] => []
  | n :: t => nodeListNodes n ++ nodesListNodes t
end

/-- The texts of `$pcCell.find("li")`, each trimmed. -/
def cellLiTexts (c : TCell) : List String :=
  ((c.lists.flatMap liListFlatten).map (fun li => jsTrim (liFullText li)))

/-- The hero subtitle (`.heroSubheading .title`): the trimmed text of its
first `strong` child and its trimmed full text. -/
structure Hero where
  strongText : String
  fullText : String
deriving Repr, DecidableEq

/-- The abstracted document handed to `parseUocHtml`. -/
structure PageDoc where
  hero : Option Hero
  h1 : String
  h2 : String
  body : List FlatNode
  pills : List String
  releaseParentText : String
  dl : List (String × String)
  links : List SupLink
deriving Repr

/-- `readDlByLabel` from `src/parsers/uocParser.ts`: the first `dt` whose
trimmed text equals the label case-insensitively; its `dd` text, trimmed,
empty meaning absent. -/
def readDlByLabel (dl : List (String × String)) (label : String) : Option String :=
  match dl.find? (fun p => toLowerStr (jsTrim p.1) == toLowerStr label) with
  | none => none
  | some p => let t := jsTrim p.2; if t = "" then none else some t

/-- JS `a ?? b` on optional strings. -/
def jsNullish (a b : Option String) : Option String :=
  match a with
  | some x => some x
  | none => b

/-- The hero strategy of `extractCodeAndTitle`: when the hero subtitle
exists and both its `strong` text and full text are nonempty, the code is
the `strong` text and the title the full text with the first occurrence of
the `strong` text removed, trimmed. -/
def heroAttempt (hero : Option Hero) : Option (String × String) :=
  match hero with
  | some h =>
    if h.strongText != "" && h.fullText != "" then
      some (h.strongText, jsTrim (replaceFirst h.fullText h.strongText ""))
    else none
  | none => none

/-- `extractCodeAndTitle` from `src/parsers/uocParser.ts`: hero subtitle,
else `Unit of Competency: CODE` in `h1` (title from a `Title:` `h2`), else
the generic `CODE – Title` split of `h1`, else `Unknown`/`Unknown`. -/
def extractCodeAndTitle (d : PageDoc) : String × String :=
  match heroAttempt d.hero with
  | some r => r
  | none =>
    let h1 := jsTrim d.h1
    match execUocCode h1 with
    | some code =>
      (code, ((titleAfterLabelMatch (jsTrim d.h2)).map jsTrim).getD "")
    | none =>
      match dashSplit h1 with
      | some r => r
      | none => ("Unknown", "Unknown")

/-- `text.charAt(0).toUpperCase() + text.slice(1)`. -/
def capFirst (s : String) : String :=
  match s.toList with
  | [] => s
  | c :: t => String.mk (toUpperChar c :: t)

/-- `extractStatus` from `src/parsers/uocParser.ts`: the last status pill
whose trimmed lowercase text is in the fixed vocabulary wins; the release is
read from the `.release-label` parent text. -/
def extractStatus (pills : List String) (releaseParentText : String) :
    Option String × Option String :=
  let status := pills.foldl
    (fun acc p =>
      let t := toLowerStr (jsTrim p)
      if t == "current" || t == "superseded" || t == "deleted" then some (capFirst t) else acc)
    none
  (status, (releaseNumMatch releaseParentText).map (fun ds => "Release " ++ ds))

/-- One iteration of the link loop of `extractSupersession`. -/
def supStep (acc : Option CodeUrl × Option CodeUrl) (a : SupLink) :
    Option CodeUrl × Option CodeUrl :=
  let text := jsTrim a.text
  let parentText := toLowerStr a.parentText
  let codeMatch := firstCodeToken text
  let acc1 :=
    if containsSub parentText "superseded by" then
      match codeMatch with
      | some c => (some ⟨c, "https://training.gov.au" ++ a.href⟩, acc.2)
      | none => acc
    else acc
  if containsSub parentText "supersedes" || containsSub (toLowerStr text) "supersedes:" then
    match codeMatch with
    | some c => (acc1.1, some ⟨c, "https://training.gov.au" ++ a.href⟩)
    | none => acc1
  else acc1

/-- `extractSupersession` from `src/parsers/uocParser.ts`: iterate the
detail-page links, overwriting the single `supersededBy` / `supersedes` slot
on each matching link. -/
def extractSupersession (links : List SupLink) : Option CodeUrl × Option CodeUrl :=
  (links.filter (fun a => jsStartsWith a.href "/training/details/")).foldl supStep (none, none)

/-- Heading predicate of the sibling walks that stop at `h2, h3`. -/
def isH23 (n : FlatNode) : Bool :=
  match n with
  | .heading tag _ => tag == "h2" || tag == "h3"
  | _ => false

/-- Heading predicate of the sibling walks that stop at `h2, h3, h4`. -/
def isHeading234 (n : FlatNode) : Bool :=
  match n with
  | .heading tag _ => tag == "h2" || tag == "h3" || tag == "h4"
  | _ => false

/-- Index of the first `h2/h3/h4` heading whose trimmed text equals
`headerText` case-insensitively. -/
def findHeaderIdxExact (body : List FlatNode) (headerText : String) : Option Nat :=
  body.findIdx? (fun n =>
    match n with
    | .heading tag t =>
      (tag == "h2" || tag == "h3" || tag == "h4") &&
        toLowerStr (jsTrim t) == toLowerStr headerText
    | _ => false)

/-- `extractTextFromSection` from `src/parsers/uocParser.ts`: find the exact
heading, walk the following siblings up to the next `h2/h3/h4`, collect
nonempty trimmed paragraph texts, join with blank lines. -/
def extractTextFromSection (body : List FlatNode) (headerText : String) : Option String :=
  match findHeaderIdxExact body headerText with
  | none => none
  | some i =>
    let texts := ((body.drop (i + 1)).takeWhile (fun n => !isHeading234 n)).flatMap
      (fun n =>
        match n with
        | .para t => let tt := jsTrim t; if tt ≠ "" then [tt] else []
        | _ => [])
    if texts.isEmpty then none else some (String.intercalate "\n\n" texts)

mutual
/-- The tables of `$("table")` below a node, in document order. -/
def nodeTables : FlatNode → List (List (List TCell))
  | .heading _ _ => []
  | .para _ => []
  | .listN _ => []
  | .divN cs => nodesTables cs
  | .tableN rows => [rows]

def nodesTables : List FlatNode → List (List (List TCell))
  | [] => []
  | n :: t => nodeTables n ++ nodesTables t
end

mutual
/-- Splitting on maximal newline runs (JS `split(/\n+/)` semantics, keeping
empty leading/trailing segments): inside a segment, with the reversed
segment prefix accumulated. -/
def splitNlAux : List Char → List Char → List String
  | [], acc => [String.mk acc.reverse]
  | '\n' :: t, acc => String.mk acc.reverse :: splitNlSkip t
  | c :: t, acc => splitNlAux t (c :: acc)

/-- Splitting on maximal newline runs: inside a separator run. -/
def splitNlSkip : List Char → List String
  | [] => [""]
  | '\n' :: t => splitNlSkip t
  | c :: t => splitNlAux t [c]
end

/-- `s.split(/\n+/)`. -/
def splitNl (s : String) : List String := splitNlAux s.toList []

/-- One row of the elements table walk of `extractElementsAndPC`, folded
over the per-table element list (the last pushed element plays the role of
`currentElement`, which the source resets at each table). -/
def elemRowStep (acc : List UocElement) (tds : List TCell) : List UocElement :=
  if tds.length < 2 then acc
  else
    let cells := tds.map (fun c => jsTrim c.text)
    if containsSub (toLowerStr (cells.getD 0 "")) "elements describe" then acc
    else if cells.length == 2 && cells.getD 0 "" != "" && cells.getD 1 "" != "" then
      let elementText := cells.getD 0 ""
      let pcText := cells.getD 1 ""
      let listItems := (cellLiTexts (tds.getD 1 ⟨"", [], []⟩)).filter (fun t => t ≠ "")
      let pcs :=
        if listItems.length > 0 then listItems
        else (splitNl pcText).filterMap (fun l =>
          let trimmed := jsTrim l
          if trimmed ≠ "" && trimmed.length > 5 then some trimmed else none)
      acc ++ [⟨elementText, pcs⟩]
    else if cells.length == 3 && cells.getD 0 "" != "" && cells.getD 1 "" != "" &&
        cells.getD 2 "" != "" then
      let elementText := cells.getD 0 ""
      let pcNumber := cells.getD 1 ""
      let pcText := cells.getD 2 ""
      if !isPcNumber elementText then
        acc ++ [⟨elementText,
          if isPcNumber pcNumber && pcText != "" then [pcNumber ++ " " ++ pcText] else []⟩]
      else acc
    else if cells.length == 4 && acc.length > 0 then
      let pcNumber := cells.getD 2 ""
      let pcText := cells.getD 3 ""
      if pcNumber != "" && pcText != "" && isPcNumber pcNumber then
        acc.dropLast ++ (acc.getLast?.map (fun e =>
          [{ e with performanceCriteria := e.performanceCriteria ++ [pcNumber ++ " " ++ pcText] }])).getD []
      else acc
    else acc

/-- `extractElementsAndPC` from `src/parsers/uocParser.ts`: over every table
whose text mentions both markers, walk the body rows accumulating elements
(2-column, 3-column, and 4-column continuation shapes); `undefined` when no
element was found. -/
def extractElementsAndPC (body : List FlatNode) : Option (List UocElement) :=
  let items := (nodesTables body).foldl
    (fun acc rows =>
      if containsSub (toLowerStr (tableText rows)) "elements" &&
          containsSub (toLowerStr (tableText rows)) "performance criteria" then
        acc ++ rows.foldl elemRowStep []
      else acc)
    []
  if items.length > 0 then some items else none

/-- The header filter of `extractEvidenceSection`
(`$("h2, h3, .mt-6.mb-2, h4")` whose trimmed lowercased text contains every
primary keyword). -/
def evidenceHeaderIdx (body : List FlatNode) (primary : List String) : Option Nat :=
  body.findIdx? (fun n =>
    match n with
    | .heading tag t =>
      (tag == "h2" || tag == "h3" || tag == "mt-6 mb-2" || tag == "h4") &&
        primary.all (fun kw => containsSub (toLowerStr (jsTrim t)) kw)
    | _ => false)

/-- The trimmed-paragraph collector shared by the evidence walks (drops the
`evidence required to demonstrate` preamble). -/
def evidencePara (p : String) : List String :=
  let tt := jsTrim p
  if tt ≠ "" && !containsSub (toLowerStr tt) "evidence required to demonstrate" then [tt] else []

/-- One sibling of the strategy-2 walk of `extractEvidenceSection`:
paragraphs, nested-bulleted lists, div-contained paragraphs and lists, and
table-contained paragraphs plus the first cell list. -/
def evidencePartOf : FlatNode → List String
  | .heading _ _ => []
  | .para t => evidencePara t
  | .listN items =>
    let its := nestedListLines 0 items
    if its.length > 0 then [String.intercalate "\n" its] else []
  | .divN cs =>
    (nodesParas cs).flatMap evidencePara ++
      (nodesListNodes cs).filterMap (fun items =>
        let its := nestedListLines 0 items
        if its.length > 0 then some (String.intercalate "\n" its) else none)
  | .tableN rows =>
    (rows.flatMap (fun r => r.flatMap (fun c => c.paras))).flatMap evidencePara ++
      (match (rows.flatMap (fun r => r.flatMap (fun c => c.lists))).head? with
       | some items =>
         let its := nestedListLines 0 items
         if its.length > 0 then [String.intercalate "\n" its] else []
       | none => [])

/-- Strategy 3 of `extractEvidenceSection`: the first node whose text
contains a fallback keyword; when it is a container (`div`), collect its
paragraphs and its nested-bulleted lists. -/
def evidenceFallback (body : List FlatNode) (kws : List String) : Option String :=
  match body.find? (fun n => kws.any (fun kw => containsSub (toLowerStr (nodeText n)) kw)) with
  | some (.divN cs) =>
    let parts :=
      (nodesParas cs).filterMap (fun p => let tt := jsTrim p; if tt ≠ "" then some tt else none) ++
        (nodesListNodes cs).filterMap (fun items =>
          let its := nestedListLines 0 items
          if its.length > 0 then some (String.intercalate "\n" its) else none)
    if parts.length > 0 then some (String.intercalate "\n\n" parts) else none
  | _ => none

/-- `extractEvidenceSection` from `src/parsers/uocParser.ts`: definition-list
lookup, else keyword-matched heading with a sibling walk up to the next
`h2/h3`, else the keyword-anchored full-document fallback. -/
def extractEvidenceSection (d : PageDoc) (dlLabel : String) (primary : List String)
    (fallbackKws : List String) : Option String :=
  match readDlByLabel d.dl dlLabel with
  | some t => some t
  | none =>
    let viaHeading :=
      match evidenceHeaderIdx d.body primary with
      | some i =>
        let parts := ((d.body.drop (i + 1)).takeWhile (fun n => !isH23 n)).flatMap evidencePartOf
        if parts.length > 0 then some (String.intercalate "\n\n" parts) else none
      | none => none
    match viaHeading with
    | some r => some r
    | none => evidenceFallback d.body fallbackKws

/-- `extractPerformanceEvidence`. -/
def extractPerformanceEvidence (d : PageDoc) : Option String :=
  extractEvidenceSection d "Performance Evidence" ["performance", "evidence"]
    ["evidence required to demonstrate competence"]

/-- `extractKnowledgeEvidence`. -/
def extractKnowledgeEvidence (d : PageDoc) : Option String :=
  extractEvidenceSection d "Knowledge Evidence" ["knowledge", "evidence"]
    ["evidence of the ability", "evidence of knowledge"]

/-- `extractAssessmentConditions` from `src/parsers/uocParser.ts`:
definition list, else exact heading with a walk collecting paragraphs and
flat `• `-bulleted list items up to the next `h2/h3`, else the full-text
regex window. -/
def extractAssessmentConditions (d : PageDoc) : Option String :=
  match readDlByLabel d.dl "Assessment Conditions" with
  | some t => some t
  | none =>
    let viaHeading :=
      match findHeaderIdxExact d.body "assessment conditions" with
      | some i =>
        let parts := ((d.body.drop (i + 1)).takeWhile (fun n => !isH23 n)).flatMap
          (fun n =>
            match n with
            | .para t => let tt := jsTrim t; if tt ≠ "" then [tt] else []
            | .listN items =>
              let its := (liListFlatten items).map (fun li => "• " ++ jsTrim (liFullText li))
              if its.length > 0 then [String.intercalate "\n" its] else []
            | _ => [])
        if parts.length > 0 then some (String.intercalate "\n\n" parts) else none
      | none => none
    match viaHeading with
    | some r => some r
    | none => acWindow (nodesText d.body)

/-- Index of the first `h2/h3/h4/strong` element whose trimmed lowercase
text is exactly `licensing/regulatory information`. -/
def licHeaderIdx (body : List FlatNode) : Option Nat :=
  body.findIdx? (fun n =>
    match n with
    | .heading tag t =>
      (tag == "h2" || tag == "h3" || tag == "h4" || tag == "strong") &&
        toLowerStr (jsTrim t) == "licensing/regulatory information"
    | _ => false)

/-- `extractLicensingInfo` from `src/parsers/uocParser.ts`: definition list,
else the labelled heading (including `strong`) with a paragraph walk up to
the next `h2/h3/h4`, else the full-text regex window. -/
def extractLicensingInfo (d : PageDoc) : Option String :=
  match readDlByLabel d.dl "Licensing/Regulatory Information" with
  | some t => some t
  | none =>
    let viaHeading :=
      match licHeaderIdx d.body with
      | some i =>
        let texts := ((d.body.drop (i + 1)).takeWhile (fun n => !isHeading234 n)).flatMap
          (fun n =>
            match n with
            | .para t => let tt := jsTrim t; if tt ≠ "" then [tt] else []
            | _ => [])
        if texts.length > 0 then some (String.intercalate "\n\n" texts) else none
      | none => none
    match viaHeading with
    | some r => some r
    | none => licWindow (nodesText d.body)

/-- The generic hierarchical section walk at the end of `parseUocHtml`: for
every nonempty `h2/h3/h4` heading, capture the following sibling paragraphs
and the direct items of the following sibling lists (nested lists dropped)
up to the next heading. -/
def extractSections : List FlatNode → List UocSection
  | [] => []
  | n :: rest =>
    (match n with
     | .heading tag text =>
       if (tag == "h2" || tag == "h3" || tag == "h4") && jsTrim text ≠ "" then
         let level := if tag == "h2" then 2 else if tag == "h3" then 3 else 4
         let following := rest.takeWhile (fun m => !isHeading234 m)
         let paragraphs := following.flatMap (fun m =>
           match m with
           | .para t => let tt := jsTrim t; if tt ≠ "" then [tt] else []
           | _ => [])
         let lists := following.flatMap (fun m =>
           match m with
           | .listN items =>
             let its := (items.map (fun li => jsTrim (liText li))).filter (fun t => t ≠ "")
             if its.length > 0 then [its] else []
           | _ => [])
         [⟨jsTrim text, level, paragraphs, lists⟩]
       else []
     | _ => []) ++ extractSections rest

/-- `parseUocHtml` from `src/parsers/uocParser.ts`, over the abstracted
document.  `now` stands for `new Date().toISOString()` (the fetch timestamp
recorded at extraction time). -/
def parseUocHtml (d : PageDoc) (url now : String) : Uoc :=
  let ct := extractCodeAndTitle d
  let description := (nodesParas d.body).findSome? descrMatch
  let sr := extractStatus d.pills d.releaseParentText
  let applicationRaw :=
    jsNullish (readDlByLabel d.dl "Application") (extractTextFromSection d.body "Application")
  let application := cleanApplication applicationRaw
  let unitSector :=
    jsNullish (readDlByLabel d.dl "Unit Sector") (extractTextFromSection d.body "Unit sector")
  let licensing := extractLicensingInfo d
  let prerequisitesRaw :=
    jsNullish (readDlByLabel d.dl "Prerequisite Unit")
      (jsNullish (readDlByLabel d.dl "Prerequisites")
        (jsNullish (readDlByLabel d.dl "Pre-requisite Unit")
          (extractTextFromSection d.body "Pre-requisite unit")))
  let prerequisites := prerequisitesRaw.map allCodeTokens
  let elements := extractElementsAndPC d.body
  let foundationSkills :=
    jsNullish (readDlByLabel d.dl "Foundation Skills")
      (extractTextFromSection d.body "Foundation skills")
  let assessmentConditions := extractAssessmentConditions d
  let performanceEvidence := extractPerformanceEvidence d
  let knowledgeEvidence := extractKnowledgeEvidence d
  let sup := extractSupersession d.links
  let sections := extractSections d.body
  { url := url
    code := ct.1
    title := ct.2
    description := description
    status := sr.1
    release := sr.2
    application := application
    unitSector := unitSector
    licensingOrRegulatoryInfo := licensing
    prerequisites := prerequisites
    elements := elements
    foundationSkills := foundationSkills
    assessmentConditions := assessmentConditions
    performanceEvidence := performanceEvidence
    knowledgeEvidence := knowledgeEvidence
    supersededBy := sup.1
    supersedes := sup.2
    sections := if sections.length > 0 then some sections else none
    lastFetchedAt := now }

/-- The document of an empty (or entirely unrecognized) HTML string: no
hero, empty `h1`/`h2`, no content nodes, no pills, no definition list, no
links. -/
def emptyPageDoc : PageDoc := ⟨none, "", "", [], [], "", [], []⟩

/-! ## Support lemmas -/

/-- The first slot updated by one link step: set exactly on a
superseded-by hit with a code. -/
def byHit (a : SupLink) : Bool :=
  containsSub (toLowerStr a.parentText) "superseded by" && (firstCodeToken (jsTrim a.text)).isSome

/-- The second slot updated by one link step: set exactly on a supersedes
hit with a code. -/
def supHit (a : SupLink) : Bool :=
  (containsSub (toLowerStr a.parentText) "supersedes" ||
    containsSub (toLowerStr (jsTrim a.text)) "supersedes:") &&
    (firstCodeToken (jsTrim a.text)).isSome

/-- The record a matching link contributes. -/
def linkCodeUrl (a : SupLink) : CodeUrl :=
  ⟨(firstCodeToken (jsTrim a.text)).getD "", "https://training.gov.au" ++ a.href⟩

lemma supStep_fst (acc : Option CodeUrl × Option CodeUrl) (a : SupLink) :
    (supStep acc a).1 = if byHit a then some (linkCodeUrl a) else acc.1 := by
  unfold supStep byHit linkCodeUrl
  cases hby : containsSub (toLowerStr a.parentText) "superseded by" <;>
    cases hcode : firstCodeToken (jsTrim a.text) <;>
    cases hsup : (containsSub (toLowerStr a.parentText) "supersedes" ||
      containsSub (toLowerStr (jsTrim a.text)) "supersedes:") <;>
    simp [hby, hcode, hsup]

lemma supStep_snd (acc : Option CodeUrl × Option CodeUrl) (a : SupLink) :
    (supStep acc a).2 = if supHit a then some (linkCodeUrl a) else acc.2 := by
  unfold supStep supHit linkCodeUrl
  cases hby : containsSub (toLowerStr a.parentText) "superseded by" <;>
    cases hcode : firstCodeToken (jsTrim a.text) <;>
    cases hsup : (containsSub (toLowerStr a.parentText) "supersedes" ||
      containsSub (toLowerStr (jsTrim a.text)) "supersedes:") <;>
    simp [hby, hcode, hsup]

lemma getLastD_cons {α : Type} (a : α) (l : List α) :
    (a :: l).getLast? = some (l.getLast?.getD a) := by
  induction l generalizing a with
  | nil => rfl
  | cons b t ih => rw [List.getLast?_cons_cons, ih b]; rfl

lemma foldl_supStep_fst (l : List SupLink) :
    ∀ acc : Option CodeUrl × Option CodeUrl,
      (l.foldl supStep acc).1 =
        ((l.filter byHit).getLast?).elim acc.1 (fun a => some (linkCodeUrl a)) := by
  induction l with
  | nil => intro acc; rfl
  | cons a t ih =>
    intro acc
    rw [List.foldl_cons, ih, List.filter_cons]
    cases hby : byHit a
    · simp [supStep_fst, hby]
    · rw [if_pos rfl, getLastD_cons]
      cases h : (t.filter byHit).getLast? <;>
        simp [h, supStep_fst, hby]

lemma foldl_supStep_snd (l : List SupLink) :
    ∀ acc : Option CodeUrl × Option CodeUrl,
      (l.foldl supStep acc).2 =
        ((l.filter supHit).getLast?).elim acc.2 (fun a => some (linkCodeUrl a)) := by
  induction l with
  | nil => intro acc; rfl
  | cons a t ih =>
    intro acc
    rw [List.foldl_cons, ih, List.filter_cons]
    cases hsup : supHit a
    · simp [supStep_snd, hsup]
    · rw [if_pos rfl, getLastD_cons]
      cases h : (t.filter supHit).getLast? <;>
        simp [h, supStep_snd, hsup]

/-! ## Theorems -/

set_option maxRecDepth 8192

/-- Claim C1 (the code at the failing input): an identifier recorded only in
the `invalidUnits` array of a previous run's `error-log.json` is invisible to
`loadPreviousErrors`, so a subsequent run's planner classifies it `new` and
places it in the scheduler's work queue — it is refetched, not skipped. -/
theorem invalid_identifier_refetched :
    classifyUnit []
      (loadPreviousErrors ⟨[("INVALID001", "404 - Unit not found")], []⟩ "t1") 3
      "INVALID001" = .new ∧
    allUnitsToProcess ["INVALID001"] []
      (loadPreviousErrors ⟨[("INVALID001", "404 - Unit not found")], []⟩ "t1") 3 =
      ["INVALID001"] := by decide

/-- Claim C4 counterexample: with `AAA111` new and `BBB222` retry-eligible,
the work queue is `[AAA111, BBB222]` — the retry-eligible identifier comes
after the new one, so the claimed retry-before-new concatenation is false. -/
theorem queue_retry_first_cex :
    classifyUnit [] [("BBB222", ⟨"BBB222", "timeout", 1, "t1"⟩)] 3 "AAA111" = .new ∧
    classifyUnit [] [("BBB222", ⟨"BBB222", "timeout", 1, "t1"⟩)] 3 "BBB222" = .retry ∧
    allUnitsToProcess ["AAA111", "BBB222"] [] [("BBB222", ⟨"BBB222", "timeout", 1, "t1"⟩)] 3 =
      ["AAA111", "BBB222"] ∧
    ¬ (allUnitsToProcess ["AAA111", "BBB222"] [] [("BBB222", ⟨"BBB222", "timeout", 1, "t1"⟩)] 3).indexOf
        "BBB222" <
      (allUnitsToProcess ["AAA111", "BBB222"] [] [("BBB222", ⟨"BBB222", "timeout", 1, "t1"⟩)] 3).indexOf
        "AAA111" := by decide

/-- Claim C4 as amended: the work queue concatenates the new list before the
retry list — every identifier classified `new` precedes every identifier
classified `retry` in the queue order. -/
theorem queue_new_before_retry (requested existingUnits : List String)
    (previousErrors : List (String × UnitError)) (maxRetries : Nat) (a b : String)
    (ha : a ∈ requested)
    (hca : classifyUnit existingUnits previousErrors maxRetries a = .new)
    (hcb : classifyUnit existingUnits previousErrors maxRetries b = .retry) :
    (allUnitsToProcess requested existingUnits previousErrors maxRetries).indexOf a <
      (allUnitsToProcess requested existingUnits previousErrors maxRetries).indexOf b := by
  have hamem : a ∈ unitsToScrape requested existingUnits previousErrors maxRetries := by
    simp [unitsToScrape, List.mem_filter, ha, hca]
  have hbnot : b ∉ unitsToScrape requested existingUnits previousErrors maxRetries := by
    simp [unitsToScrape, List.mem_filter, hcb]
  rw [allUnitsToProcess, List.indexOf_append_of_mem hamem,
    List.indexOf_append_of_not_mem hbnot]
  exact Nat.lt_of_lt_of_le (List.indexOf_lt_length.mpr hamem) (Nat.le_add_right _ _)

/-- Claim C4 amended witness. -/
theorem queue_new_before_retry_witness :
    (allUnitsToProcess ["AAA111", "BBB222"] [] [("BBB222", ⟨"BBB222", "timeout", 1, "t1"⟩)] 3).indexOf
        "AAA111" <
      (allUnitsToProcess ["AAA111", "BBB222"] [] [("BBB222", ⟨"BBB222", "timeout", 1, "t1"⟩)] 3).indexOf
        "BBB222" :=
  queue_new_before_retry ["AAA111", "BBB222"] [] [("BBB222", ⟨"BBB222", "timeout", 1, "t1"⟩)] 3
    "AAA111" "BBB222" (by decide) (by decide) (by decide)

/-- Claim C9 counterexample: two superseded-by links in document order —
`MARA022` first, `MARB027` second — and the retained link is the second one,
so first-match-wins is false. -/
theorem supersession_first_wins_cex :
    (extractSupersession
        [⟨"/training/details/MARA022/unitdetails", "MARA022", "Superseded by MARA022"⟩,
         ⟨"/training/details/MARB027/unitdetails", "MARB027", "Superseded by MARB027"⟩]).1 =
      some ⟨"MARB027", "https://training.gov.au/training/details/MARB027/unitdetails"⟩ ∧
    firstCodeToken (jsTrim "MARA022") = some "MARA022" ∧
    (some (⟨"MARB027", "https://training.gov.au/training/details/MARB027/unitdetails"⟩ : CodeUrl) ≠
      some ⟨"MARA022", "https://training.gov.au/training/details/MARA022/unitdetails"⟩) := by
  decide

/-- Claim C9 as amended: at most one link of each supersession relation is
retained (one optional slot each), and for each relation the last matching
link in document order wins. -/
theorem supersession_last_wins (links : List SupLink) :
    extractSupersession links =
      ((((links.filter (fun a => jsStartsWith a.href "/training/details/")).filter
          byHit).getLast?).elim none (fun a => some (linkCodeUrl a)),
       (((links.filter (fun a => jsStartsWith a.href "/training/details/")).filter
          supHit).getLast?).elim none (fun a => some (linkCodeUrl a))) := by
  unfold extractSupersession
  refine Prod.ext ?_ ?_
  · exact foldl_supStep_fst _ (none, none)
  · exact foldl_supStep_snd _ (none, none)

/-- Claim C9 amended witness. -/
theorem supersession_last_wins_witness :
    extractSupersession
        [⟨"/training/details/MARA022/unitdetails", "MARA022", "Superseded by MARA022"⟩,
         ⟨"/training/details/MARB027/unitdetails", "MARB027", "Superseded by MARB027"⟩] =
      (((([⟨"/training/details/MARA022/unitdetails", "MARA022", "Superseded by MARA022"⟩,
           ⟨"/training/details/MARB027/unitdetails", "MARB027", "Superseded by MARB027"⟩].filter
            (fun a => jsStartsWith a.href "/training/details/")).filter byHit).getLast?).elim
          none (fun a => some (linkCodeUrl a)),
       ((([⟨"/training/details/MARA022/unitdetails", "MARA022", "Superseded by MARA022"⟩,
           ⟨"/training/details/MARB027/unitdetails", "MARB027", "Superseded by MARB027"⟩].filter
            (fun a => jsStartsWith a.href "/training/details/")).filter supHit).getLast?).elim
          none (fun a => some (linkCodeUrl a))) :=
  supersession_last_wins
    [⟨"/training/details/MARA022/unitdetails", "MARA022", "Superseded by MARA022"⟩,
     ⟨"/training/details/MARB027/unitdetails", "MARB027", "Superseded by MARB027"⟩]

lemma mapGet_set {β : Type} (m : List (String × β)) (k : String) (v : β) :
    mapGet (mapSet m k v) k = some v := by
  simp [mapGet, mapSet, List.lookup]

/-- Claim C10: a URL placed in the cache by `setCache` is afterwards served
from the cache — `get` returns exactly the cached HTML and leaves the state
untouched (no network fetch, no politeness delay, both of which live in the
delegated `Fetcher.get` path); `get` never changes the cache, so in the
validate-then-scrape flow the page of a valid identifier is downloaded
exactly once. -/
theorem cached_fetcher_serves_cache :
    (∀ (net : String → String) (st : CachedFetcherState) (u h : String),
        cachedGet net (setCache st u h) u = (h, setCache st u h))
    ∧ (∀ (net : String → String) (st : CachedFetcherState) (u : String),
        (cachedGet net st u).2.cache = st.cache)
    ∧ (∀ (net : String → String) (code : String),
        (validateThenScrape net code).1 = net (unitDetailsUrl code) ∧
        (validateThenScrape net code).2.fetchLog = [unitDetailsUrl code]) := by
  refine ⟨?_, ?_, ?_⟩
  · intro net st u h
    simp [cachedGet, setCache, mapGet_set]
  · intro net st u
    unfold cachedGet
    cases h : mapGet st.cache u <;> simp [h]
  · intro net code
    simp [validateThenScrape, cachedGet, setCache, mapGet, mapSet, List.lookup]

/-- Claim C10 witness. -/
theorem cached_fetcher_serves_cache_witness :
    cachedGet (fun _ => "page") (setCache ⟨[], []⟩ "u1" "cached") "u1" =
      ("cached", setCache ⟨[], []⟩ "u1" "cached") :=
  cached_fetcher_serves_cache.1 (fun _ => "page") ⟨[], []⟩ "u1" "cached"

/-- Claim C8: an error message carrying an explicit not-found marker (`404`
or `not found`) records a terminal invalid outcome; any other message
increments the attempts counter by one (1 when no prior entry exists) and
records a pending outcome with the error text and timestamp.  One exhausted
`Fetcher.get` call (3 internal attempts) raises a single aggregated error,
so a first-run transient failure is categorized once, as
`pendingErr` with attempts 1. -/
theorem failure_categorization :
    (∀ (prev : Option Nat) (msg now : String),
        (containsSub msg "404" || containsSub msg "not found") = true →
        categorizeError prev msg now = .invalid "404 - Unit not found")
    ∧ (∀ (prev : Option Nat) (msg now : String),
        (containsSub msg "404" || containsSub msg "not found") = false →
        categorizeError prev msg now = .pendingErr (jsOr0 prev + 1) msg now)
    ∧ (∀ (msg now : String),
        (containsSub msg "404" || containsSub msg "not found") = false →
        categorizeError none msg now = .pendingErr 1 msg now)
    ∧ (∀ now : String,
        fetcherGet (fun _ => .fail "Navigation timeout of 30000 ms exceeded") ⟨none, none⟩ =
          ⟨.error "FetchFailed:TIMEOUT:Navigation timeout of 30000 ms exceeded", 3, [750, 1500]⟩ ∧
        categorizeError none "FetchFailed:TIMEOUT:Navigation timeout of 30000 ms exceeded" now =
          .pendingErr 1 "FetchFailed:TIMEOUT:Navigation timeout of 30000 ms exceeded" now) := by
  refine ⟨?_, ?_, ?_, ?_⟩
  · intro prev msg now h
    simp [categorizeError, h]
  · intro prev msg now h
    simp [categorizeError, h]
  · intro msg now h
    simp [categorizeError, h, jsOr0]
  · intro now
    constructor
    · simp [fetcherGet, fetchLoop, classifyError, fetchErrMsg]
      decide
    · have hmark : (containsSub "FetchFailed:TIMEOUT:Navigation timeout of 30000 ms exceeded"
          "404" ||
          containsSub "FetchFailed:TIMEOUT:Navigation timeout of 30000 ms exceeded"
            "not found") = false := by decide
      simp [categorizeError, hmark, jsOr0]

/-- Claim C8 witness. -/
theorem failure_categorization_witness :
    categorizeError (some 1) "FetchFailed:NETWORK:net::ERR_CONNECTION_RESET" "t2" =
      .pendingErr 2 "FetchFailed:NETWORK:net::ERR_CONNECTION_RESET" "t2" :=
  failure_categorization.2.1 (some 1) "FetchFailed:NETWORK:net::ERR_CONNECTION_RESET" "t2"
    (by decide)

/-- Claim C3: the planner's classification is a pure function of the
requested set, the persisted state (the output workbook's codes and the
previous-error map) and `maxRetries` (defaulting to 3): a present identifier
is skipped whatever its error history; a pending identifier is retried below
`maxRetries` attempts and skipped at or above it; an identifier with neither
record is new; and the skip/retry/new lists are pairwise disjoint. -/
theorem planner_classification :
    maxRetriesOrDefault none = 3
    ∧ (∀ (existingUnits : List String) (previousErrors : List (String × UnitError))
          (maxRetries : Nat) (code : String),
        existingUnits.contains code = true →
        classifyUnit existingUnits previousErrors maxRetries code = .skip)
    ∧ (∀ (existingUnits : List String) (previousErrors : List (String × UnitError))
          (maxRetries : Nat) (code : String) (e : UnitError),
        existingUnits.contains code = false →
        mapGet previousErrors code = some e →
        e.attempts < maxRetries →
        classifyUnit existingUnits previousErrors maxRetries code = .retry)
    ∧ (∀ (existingUnits : List String) (previousErrors : List (String × UnitError))
          (maxRetries : Nat) (code : String) (e : UnitError),
        existingUnits.contains code = false →
        mapGet previousErrors code = some e →
        maxRetries ≤ e.attempts →
        classifyUnit existingUnits previousErrors maxRetries code = .skip)
    ∧ (∀ (existingUnits : List String) (previousErrors : List (String × UnitError))
          (maxRetries : Nat) (code : String),
        existingUnits.contains code = false →
        mapGet previousErrors code = none →
        classifyUnit existingUnits previousErrors maxRetries code = .new)
    ∧ (∀ (requested existingUnits : List String)
          (previousErrors : List (String × UnitError)) (maxRetries : Nat) (c : String),
        ¬(c ∈ unitsToScrape requested existingUnits previousErrors maxRetries ∧
          c ∈ unitsToRetry requested existingUnits previousErrors maxRetries) ∧
        ¬(c ∈ unitsToScrape requested existingUnits previousErrors maxRetries ∧
          c ∈ skippedUnits requested existingUnits previousErrors maxRetries) ∧
        ¬(c ∈ unitsToRetry requested existingUnits previousErrors maxRetries ∧
          c ∈ skippedUnits requested existingUnits previousErrors maxRetries)) := by
  refine ⟨rfl, ?_, ?_, ?_, ?_, ?_⟩
  · intro ex prev mr code h
    have hm : code ∈ ex := by simpa using h
    simp [classifyUnit, hm]
  · intro ex prev mr code e hex hget hlt
    have hm : code ∉ ex := by simpa using hex
    simp [classifyUnit, hm, hget, hlt]
  · intro ex prev mr code e hex hget hge
    have hm : code ∉ ex := by simpa using hex
    simp [classifyUnit, hm, hget, Nat.not_lt.mpr hge]
  · intro ex prev mr code hex hget
    have hm : code ∉ ex := by simpa using hex
    simp [classifyUnit, hm, hget]
  · intro req ex prev mr c
    refine ⟨fun ⟨h1, h2⟩ => ?_, fun ⟨h1, h2⟩ => ?_, fun ⟨h1, h2⟩ => ?_⟩ <;>
    · have e1 := (List.mem_filter.mp h1).2
      have e2 := (List.mem_filter.mp h2).2
      simp only [decide_eq_true_eq] at e1 e2
      rw [e1] at e2
      exact Classification.noConfusion e2

/-- Claim C3 witness. -/
theorem planner_classification_witness :
    classifyUnit [] [("TIMEOUT001", ⟨"TIMEOUT001", "timeout", 1, "t1"⟩)] 3 "TIMEOUT001" =
      .retry :=
  planner_classification.2.2.1 [] [("TIMEOUT001", ⟨"TIMEOUT001", "timeout", 1, "t1"⟩)] 3
    "TIMEOUT001" ⟨"TIMEOUT001", "timeout", 1, "t1"⟩ (by decide) (by decide) (by decide)

lemma mem_setAdd (s : List String) (code c : String) :
    c ∈ setAdd s code ↔ c ∈ s ∨ c = code := by
  unfold setAdd
  by_cases h : s.contains code = true
  · rw [if_pos h]
    constructor
    · exact Or.inl
    · rintro (h1 | rfl)
      · exact h1
      · exact List.mem_of_elem_eq_true h
  · rw [if_neg h]
    simp

lemma mem_foldl_setAdd (l : List Uoc) :
    ∀ (s : List String) (c : String),
      (c ∈ s ∨ ∃ u ∈ l, u.code = c) → c ∈ l.foldl (fun s u => setAdd s u.code) s := by
  induction l with
  | nil =>
    intro s c h
    simpa using h.elim id (fun ⟨_, h, _⟩ => absurd h (List.not_mem_nil _))
  | cons u t ih =>
    intro s c h
    rw [List.foldl_cons]
    refine ih (setAdd s u.code) c ?_
    rcases h with h | ⟨v, hv, rfl⟩
    · exact Or.inl ((mem_setAdd s u.code c).mpr (Or.inl h))
    · rcases List.mem_cons.mp hv with rfl | hvt
      · exact Or.inl ((mem_setAdd s v.code v.code).mpr (Or.inr rfl))
      · exact Or.inr ⟨v, hvt, rfl⟩

/-- Claim C2: re-ingestion tracks every persisted code, and under the
`init`-established invariants (every line's code tracked, line codes
distinct) a `writeJsonl` leaves exactly one line for the written identifier —
the new record, the prior line removed first (replace, not merge) — and
preserves both invariants, so reloading the corpus yields one entry per
identifier with the latest write winning, within a run and across runs. -/
theorem corpus_write_replaces :
    (∀ (lines : List Uoc) (u : Uoc), u ∈ lines →
        u.code ∈ (initExportState lines).existingCodes)
    ∧ (∀ (st : ExportState) (item : Uoc),
        (∀ u ∈ st.lines, u.code ∈ st.existingCodes) →
        (st.lines.map (fun u => u.code)).Nodup →
        ((writeJsonl st item).lines.filter (fun u => u.code == item.code) = [item] ∧
         ((writeJsonl st item).lines.map (fun u => u.code)).Nodup ∧
         ∀ u ∈ (writeJsonl st item).lines, u.code ∈ (writeJsonl st item).existingCodes)) := by
  constructor
  · intro lines u hu
    exact mem_foldl_setAdd lines [] u.code (Or.inr ⟨u, hu, rfl⟩)
  · intro st item hinv hnd
    by_cases hc : item.code ∈ st.existingCodes
    · have hlines : (writeJsonl st item).lines =
          st.lines.filter (fun u => u.code != item.code) ++ [item] := by
        simp [writeJsonl, removeUnit, hc]
      have hcodes : (writeJsonl st item).existingCodes =
          setAdd st.existingCodes item.code := by
        simp [writeJsonl, removeUnit, hc]
      refine ⟨?_, ?_, ?_⟩
      · rw [hlines, List.filter_append]
        have h1 : (st.lines.filter (fun u => u.code != item.code)).filter
            (fun u => u.code == item.code) = [] := by
          rw [List.filter_eq_nil_iff]
          intro u hu
          have := (List.mem_filter.mp hu).2
          simp_all
        rw [h1]
        simp
      · rw [hlines, List.map_append, List.nodup_append]
        refine ⟨hnd.sublist ((List.filter_sublist st.lines).map (fun u => u.code)),
          by simp, ?_⟩
        intro x hx hx2
        simp only [List.map_cons, List.map_nil, List.mem_singleton] at hx2
        subst hx2
        obtain ⟨u, hu, hcode⟩ := List.mem_map.mp hx
        have := (List.mem_filter.mp hu).2
        simp_all
      · intro u hu
        rw [hlines] at hu
        rw [hcodes]
        rcases List.mem_append.mp hu with h | h
        · exact (mem_setAdd _ _ _).mpr (Or.inl (hinv u (List.mem_filter.mp h).1))
        · simp only [List.mem_singleton] at h
          subst h
          exact (mem_setAdd _ _ _).mpr (Or.inr rfl)
    · have hnone : ∀ u ∈ st.lines, u.code ≠ item.code := by
        intro u hu heq
        exact hc (heq ▸ hinv u hu)
      have hlines : (writeJsonl st item).lines = st.lines ++ [item] := by
        simp [writeJsonl, hc]
      have hcodes : (writeJsonl st item).existingCodes =
          setAdd st.existingCodes item.code := by
        simp [writeJsonl, hc]
      refine ⟨?_, ?_, ?_⟩
      · rw [hlines, List.filter_append]
        have h1 : st.lines.filter (fun u => u.code == item.code) = [] := by
          rw [List.filter_eq_nil_iff]
          intro u hu
          have := hnone u hu
          simp_all
        rw [h1]
        simp
      · rw [hlines, List.map_append, List.nodup_append]
        refine ⟨hnd, by simp, ?_⟩
        intro x hx hx2
        simp only [List.map_cons, List.map_nil, List.mem_singleton] at hx2
        subst hx2
        obtain ⟨u, hu, hcode⟩ := List.mem_map.mp hx
        exact hnone u hu hcode
      · intro u hu
        rw [hlines] at hu
        rw [hcodes]
        rcases List.mem_append.mp hu with h | h
        · exact (mem_setAdd _ _ _).mpr (Or.inl (hinv u h))
        · simp only [List.mem_singleton] at h
          subst h
          exact (mem_setAdd _ _ _).mpr (Or.inr rfl)

/-- A minimal persisted record (for concrete instances). -/
def mkBareUoc (code title stamp : String) : Uoc :=
  { url := "u1", code := code, title := title, status := none, release := none,
    application := none, unitSector := none, licensingOrRegulatoryInfo := none,
    prerequisites := none, elements := none, foundationSkills := none,
    assessmentConditions := none, performanceEvidence := none, knowledgeEvidence := none,
    description := none, supersededBy := none, supersedes := none, sections := none,
    lastFetchedAt := stamp }

/-- Claim C2 witness: Scenario D — a second successful extraction of
`MARB027` leaves exactly one `MARB027` line, holding the second run's
record. -/
theorem corpus_write_replaces_witness :
    (writeJsonl ⟨[mkBareUoc "MARB027" "old" "t1"], ["MARB027"]⟩
        (mkBareUoc "MARB027" "new" "t2")).lines.filter
      (fun u => u.code == (mkBareUoc "MARB027" "new" "t2").code) =
      [mkBareUoc "MARB027" "new" "t2"] :=
  (corpus_write_replaces.2 ⟨[mkBareUoc "MARB027" "old" "t1"], ["MARB027"]⟩
    (mkBareUoc "MARB027" "new" "t2") (by decide) (by decide)).1

lemma fetchLoop_attempts_le (oracle : Nat → AttemptOutcome) (mr b : Nat) :
    ∀ (n attempt : Nat) (lastErr : Option String) (backoffs : List Nat),
      mr - attempt ≤ n → attempt ≤ mr →
      (fetchLoop oracle mr b attempt lastErr backoffs).attemptsMade ≤ mr := by
  intro n
  induction n with
  | zero =>
    intro attempt lastErr backoffs hle hattempt
    have heq : attempt = mr := Nat.le_antisymm hattempt (by omega)
    rw [fetchLoop, if_neg (by omega)]
    simp [heq]
  | succ n ih =>
    intro attempt lastErr backoffs hle hattempt
    rw [fetchLoop]
    by_cases h : attempt < mr
    · rw [if_pos h]
      cases oracle (attempt + 1) with
      | ok html => exact h
      | fail m => exact ih (attempt + 1) (some m) _ (by omega) (by omega)
    · rw [if_neg h]
      exact hattempt

lemma fetchLoop_allfail (oracle : Nat → AttemptOutcome) (mr b : Nat) (msgs : Nat → String)
    (hfail : ∀ i, 1 ≤ i → i ≤ mr → oracle i = .fail (msgs i)) :
    ∀ (n attempt : Nat) (lastErr : Option String) (backoffs : List Nat),
      mr - attempt ≤ n → attempt < mr →
      fetchLoop oracle mr b attempt lastErr backoffs =
        ⟨.error ("FetchFailed:" ++ classifyError (some (msgs mr)) ++ ":" ++ msgs mr), mr,
         backoffs ++ (List.range' (attempt + 1) (mr - attempt - 1)).map (fun i => b * i)⟩ := by
  intro n
  induction n with
  | zero => intro attempt lastErr backoffs hle hlt; omega
  | succ n ih =>
    intro attempt lastErr backoffs hle hlt
    rw [fetchLoop, if_pos hlt, hfail (attempt + 1) (by omega) (by omega)]
    dsimp only
    by_cases h : attempt + 1 < mr
    · rw [if_pos h,
        ih (attempt + 1) (some (msgs (attempt + 1))) (backoffs ++ [b * (attempt + 1)])
          (by omega) h]
      have hn : mr - attempt - 1 = (mr - attempt - 2) + 1 := by omega
      rw [hn, show List.range' (attempt + 1) ((mr - attempt - 2) + 1) =
        (attempt + 1) :: List.range' (attempt + 1 + 1) (mr - attempt - 2) from rfl,
        List.map_cons]
      have harith : mr - (attempt + 1) - 1 = mr - attempt - 2 := by omega
      rw [harith]
      simp
    · have hmr : attempt + 1 = mr := by omega
      rw [if_neg h, fetchLoop, if_neg (by omega)]
      have hn : mr - attempt - 1 = 0 := by omega
      rw [hn, hmr]
      simp [fetchErrMsg]

/-- Claim C6: `Fetcher.get` makes at most `maxRetries` (default 3)
underlying attempts; when every attempt fails it sleeps `backoffMs × n`
after the `n`-th failed attempt (linear, no jitter) and raises exactly one
aggregated `FetchFailed` error carrying the classification and message of
the last failure; with the constructor defaults this is 3 attempts and
backoffs `[750, 1500]`. -/
theorem fetcher_retry_contract :
    (∀ (oracle : Nat → AttemptOutcome) (opts : FetcherRetryOptions),
        (fetcherGet oracle opts).attemptsMade ≤ opts.maxRetries.getD 3)
    ∧ (∀ (oracle : Nat → AttemptOutcome) (msgs : Nat → String) (maxRetries backoffMs : Nat),
        1 ≤ maxRetries →
        (∀ i, 1 ≤ i → i ≤ maxRetries → oracle i = .fail (msgs i)) →
        fetchLoop oracle maxRetries backoffMs 0 none [] =
          ⟨.error ("FetchFailed:" ++ classifyError (some (msgs maxRetries)) ++ ":" ++
              msgs maxRetries),
            maxRetries, (List.range' 1 (maxRetries - 1)).map (fun i => backoffMs * i)⟩)
    ∧ (∀ (oracle : Nat → AttemptOutcome) (msgs : Nat → String),
        (∀ i, 1 ≤ i → i ≤ 3 → oracle i = .fail (msgs i)) →
        fetcherGet oracle ⟨none, none⟩ =
          ⟨.error ("FetchFailed:" ++ classifyError (some (msgs 3)) ++ ":" ++ msgs 3), 3,
            [750 * 1, 750 * 2]⟩) := by
  refine ⟨?_, ?_, ?_⟩
  · intro oracle opts
    exact fetchLoop_attempts_le oracle _ _ (opts.maxRetries.getD 3) 0 none [] (by omega)
      (by omega)
  · intro oracle msgs mr b hmr hfail
    have := fetchLoop_allfail oracle mr b msgs hfail mr 0 none [] (by omega) (by omega)
    simpa using this
  · intro oracle msgs hfail
    have := fetchLoop_allfail oracle 3 750 msgs hfail 3 0 none [] (by omega) (by omega)
    unfold fetcherGet
    simp only [Option.getD_none]
    rw [this]
    rfl

/-- Claim C6 witness. -/
theorem fetcher_retry_contract_witness :
    fetcherGet (fun _ => .fail "socket hang up") ⟨none, none⟩ =
      ⟨.error ("FetchFailed:" ++ classifyError (some "socket hang up") ++ ":" ++
          "socket hang up"),
        3, [750 * 1, 750 * 2]⟩ :=
  fetcher_retry_contract.2.2 (fun _ => .fail "socket hang up") (fun _ => "socket hang up")
    (fun _ _ _ => rfl)

lemma strMk_toList (s : String) : String.mk s.toList = s := rfl

lemma jsSetDedupAux_subset :
    ∀ (l seen : List String) (x : String), x ∈ jsSetDedupAux l seen → x ∈ l := by
  intro l
  induction l with
  | nil => intro seen x h; simp [jsSetDedupAux] at h
  | cons a t ih =>
    intro seen x h
    unfold jsSetDedupAux at h
    by_cases hc : seen.contains a = true
    · rw [if_pos hc] at h
      exact List.mem_cons_of_mem _ (ih seen x h)
    · rw [if_neg hc] at h
      rcases List.mem_cons.mp h with rfl | h2
      · exact List.mem_cons_self _ _
      · exact List.mem_cons_of_mem _ (ih (a :: seen) x h2)

lemma all_mono {p q : Char → Bool} (hpq : ∀ c, p c = true → q c = true) :
    ∀ l : List Char, l.all p = true → l.all q = true := by
  intro l h
  rw [List.all_eq_true] at *
  exact fun c hc => hpq c (h c hc)

lemma not_lower_of_upperDigit (c : Char) (h : isUpperDigitChar c = true) :
    isLowerChar c = false := by
  simp only [isUpperDigitChar, isUpperChar, isDigitChar, Bool.or_eq_true,
    decide_eq_true_eq] at h
  simp only [isLowerChar, decide_eq_false_iff_not]
  omega

lemma toUpperChar_fix (c : Char) (h : isLowerChar c = false) : toUpperChar c = c := by
  unfold toUpperChar
  rw [if_neg]
  simp [h]

lemma map_toUpper_fix : ∀ l : List Char, (∀ c ∈ l, isLowerChar c = false) →
    l.map toUpperChar = l := by
  intro l h
  induction l with
  | nil => rfl
  | cons c t ih =>
    rw [List.map_cons, toUpperChar_fix c (h c (List.mem_cons_self _ _)),
      ih (fun d hd => h d (List.mem_cons_of_mem _ hd))]

lemma excelRunBranch_all (k : Nat) (cs : List Char) (h : excelRunBranch k cs = true) :
    cs.all isUpperDigitChar = true := by
  unfold excelRunBranch at h
  simp only [Bool.and_eq_true] at h
  obtain ⟨⟨⟨⟨hk, htake⟩, hdrop⟩, h3⟩, h10⟩ := h
  rw [← List.take_append_drop k cs, List.all_append, Bool.and_eq_true]
  exact ⟨all_mono (fun c hc => by simp [isUpperDigitChar, hc]) _ htake, hdrop⟩

lemma excelRunOk_noLower (cs : List Char) (h : excelRunOk cs = true) :
    ∀ c ∈ cs, isLowerChar c = false := by
  have hall : cs.all isUpperDigitChar = true := by
    unfold excelRunOk at h
    rw [Bool.or_eq_true, Bool.or_eq_true] at h
    rcases h with (h2 | h3) | h4
    · exact excelRunBranch_all 2 cs h2
    · exact excelRunBranch_all 3 cs h3
    · exact excelRunBranch_all 4 cs h4
  intro c hc
  exact not_lower_of_upperDigit c (List.all_eq_true.mp hall c hc)

lemma isValid_parts (s : String) (h : isValidUnitCode s = true) :
    6 ≤ s.length ∧ s.length ≤ 12 ∧ leadingUpper2 s = true ∧ 3 ≤ digitCount s ∧
      excludeList.contains (toUpperStr s) = false ∧ finalUnitPattern s = true := by
  unfold isValidUnitCode at h
  split_ifs at h with h1 h2 h3 h4
  refine ⟨?_, ?_, ?_, ?_, ?_, h⟩
  · simp only [Bool.or_eq_true, decide_eq_true_eq, not_or] at h1
    omega
  · simp only [Bool.or_eq_true, decide_eq_true_eq, not_or] at h1
    omega
  · simpa using h2
  · simpa using h3
  · simpa using h4

lemma finalUnitPattern_parts (s : String) (h : finalUnitPattern s = true) :
    s.toList.all isAlnumChar = true ∧
      (isDigitChar (s.toList.getD (s.toList.length - 1) ' ') ||
        (isDigitChar (s.toList.getD (s.toList.length - 2) ' ') &&
          isLetterChar (s.toList.getD (s.toList.length - 1) ' '))) = true := by
  unfold finalUnitPattern at h
  simp only [Bool.and_eq_true] at h
  exact ⟨h.1.1.1.2, by rw [h.2]⟩

lemma valid_code_spec (s : String) (h : isValidUnitCode s = true) :
    specTokenGrammar s = true := by
  obtain ⟨hlen6, hlen12, hlead, hdig, _, hfinal⟩ := isValid_parts s h
  obtain ⟨halnum, hends⟩ := finalUnitPattern_parts s hfinal
  unfold specTokenGrammar
  simp only [Bool.and_eq_true]
  have hlength : s.toList.length = s.length := rfl
  refine ⟨⟨⟨⟨⟨hlead, halnum⟩, by simpa using hdig⟩, by simp [hlength, hlen6]⟩,
    by simp [hlength, hlen12]⟩, hends⟩

/-- Claim C5: every identifier returned by the tabular extractor satisfies
the spec's token grammar and is off the denylist, and on the Scenario A
sheet (`MARA022`, `SCUBA`, `HLTAID011`) the extractor returns exactly
`MARA022` and `HLTAID011`. -/
theorem extractor_grammar_and_scenario :
    (∀ (sheets : List (List (List String))) (code : String),
        code ∈ readUnitCodes sheets →
        specTokenGrammar code = true ∧ excludeList.contains code = false)
    ∧ readUnitCodes [[["MARA022", "SCUBA", "HLTAID011"]]] = ["MARA022", "HLTAID011"] := by
  constructor
  · intro sheets code hmem
    have h1 : code ∈ sheets.flatMap
        (fun rows => rows.flatMap (fun row => row.flatMap cellCodes)) :=
      jsSetDedupAux_subset _ [] code hmem
    obtain ⟨rows, _, h2⟩ := List.mem_flatMap.mp h1
    obtain ⟨row, _, h3⟩ := List.mem_flatMap.mp h2
    obtain ⟨cell, _, h4⟩ := List.mem_flatMap.mp h3
    unfold cellCodes at h4
    have hvalid : isValidUnitCode code = true := (List.mem_filter.mp h4).2
    obtain ⟨cs, hcs, hmk⟩ := List.mem_map.mp (List.mem_filter.mp h4).1
    have hrun : excelRunOk cs = true := (List.mem_filter.mp hcs).2
    refine ⟨valid_code_spec code hvalid, ?_⟩
    have hnl : ∀ c ∈ code.toList, isLowerChar c = false := by
      intro c hc
      exact excelRunOk_noLower cs hrun c (by rw [← hmk] at hc; exact hc)
    have hupper : toUpperStr code = code := by
      unfold toUpperStr
      rw [map_toUpper_fix code.toList hnl, strMk_toList]
    have := (isValid_parts code hvalid).2.2.2.2.1
    rwa [hupper] at this
  · decide

/-- Claim C5 witness: `MARA022` as returned from the Scenario A sheet. -/
theorem extractor_grammar_and_scenario_witness :
    specTokenGrammar "MARA022" = true ∧ excludeList.contains "MARA022" = false :=
  extractor_grammar_and_scenario.1 [[["MARA022", "SCUBA", "HLTAID011"]]] "MARA022"
    (by decide)

/-- Claim C7: the document extractor is a total function — modelled here by
evaluating on every abstracted document, including the empty one — whose
identity falls back to `Unknown`/`Unknown` whenever no identity strategy
matches (hero absent or empty, no `Unit of Competency:` code in `h1`, no
generic code–title split), and on empty input every field other than the url,
identifier, title and timestamp is absent. -/
theorem parser_identity_defaults :
    (∀ (d : PageDoc) (url now : String),
        heroAttempt d.hero = none →
        execUocCode (jsTrim d.h1) = none →
        dashSplit (jsTrim d.h1) = none →
        (parseUocHtml d url now).code = "Unknown" ∧
          (parseUocHtml d url now).title = "Unknown")
    ∧ parseUocHtml emptyPageDoc "u" "t" =
        { url := "u", code := "Unknown", title := "Unknown", status := none, release := none,
          application := none, unitSector := none, licensingOrRegulatoryInfo := none,
          prerequisites := none, elements := none, foundationSkills := none,
          assessmentConditions := none, performanceEvidence := none,
          knowledgeEvidence := none, description := none, supersededBy := none,
          supersedes := none, sections := none, lastFetchedAt := "t" } := by
  constructor
  · intro d url now h1 h2 h3
    have hct : extractCodeAndTitle d = ("Unknown", "Unknown") := by
      unfold extractCodeAndTitle
      rw [h1]
      dsimp only
      rw [h2]
      dsimp only
      rw [h3]
    constructor <;> simp [parseUocHtml, hct]
  · decide

/-- Claim C7 witness: the empty document misses every identity strategy and
defaults to `Unknown`/`Unknown`. -/
theorem parser_identity_defaults_witness :
    (parseUocHtml emptyPageDoc "u" "t").code = "Unknown" ∧
      (parseUocHtml emptyPageDoc "u" "t").title = "Unknown" :=
  parser_identity_defaults.1 emptyPageDoc "u" "t" (by decide) (by decide) (by decide)
